import Mathlib

set_option autoImplicit false

namespace GoIni

/-!  Shallow embedding of the `ini` package's decoder (`src/decode.go`) and of
the parse-tree / encoder interface it consumes (modelled from the spec where
the corresponding Go source is not part of this repository snapshot).

Go machine integers are modelled as `Int`/`Nat` with explicit truncation at
the destination width (`reflect.Value.SetInt` / `SetUint` store by converting,
i.e. truncating, the parsed 64-bit value).  Floating-point destination fields
(`reflect.Float32/Float64`) are outside the embedded type universe: their
lookup control flow is identical to the other scalar cases of `decodeStruct`,
but IEEE-754 conversion itself does not shallow-embed.  -/

/-- Destination field types (the `reflect.Kind`s handled by `decode.go`).
A struct field is `(Go field name, optional tag name, type)`; `w` is the bit
width of the integer kind (`int`/`int64` are 64 on this platform). -/
inductive Ty where
  | str : Ty
  | int : Nat → Ty
  | uint : Nat → Ty
  | bool : Ty
  | slice : Ty → Ty
  | mapt : Ty → Ty
  | strct : List (String × Option String × Ty) → Ty
deriving Repr

/-- A struct field declaration: Go field name, `ini` tag name (none when the
field carries no tag), field type. -/
abbrev FieldD := String × Option String × Ty

/-- Go values of the embedded types.  A Go `nil` map is `mapv none`; a map
created by `reflect.MakeMap` with entries `es` is `mapv (some es)`. -/
inductive Val where
  | str : String → Val
  | int : Int → Val
  | uint : Nat → Val
  | bool : Bool → Val
  | slice : List Val → Val
  | mapv : Option (List (String × Val)) → Val
  | record : List Val → Val
deriving Repr

/-- Go field name of a field declaration (`sf.Name`). -/
def fdName (f : FieldD) : String := f.1

/-- Tag name of a field declaration, when a tag is present. -/
def fdTag (f : FieldD) : Option String := f.2.1

/-- Type of a field declaration (`sf.Type`). -/
def fdTy (f : FieldD) : Ty := f.2.2

/-- Modelled from the spec: the Name Resolver (`newTag`, whose source is not
in this snapshot).  The effective name is the explicit tag override when
present, otherwise the declared field name, verbatim and case-sensitive
(spec 4.1); `"-"` as effective name excludes the field from binding. -/
def effName (f : FieldD) : String := (fdTag f).getD (fdName f)

/-- Modelled from the spec: a parse-tree property (`property`, whose source is
not in this snapshot).  `vals` maps a map-key (`""` for plain `key=value`
occurrences, the subkey for `key[subkey]=value`) to the ordered sequence of
raw string values accumulated from duplicate occurrences (spec data model,
Property). -/
structure Property where
  vals : List (String × List String)
deriving Repr

/-- Modelled from the spec: `property.get` — the value sequence stored under
one map-key, empty when the key is absent. -/
def Property.get (p : Property) (k : String) : List String :=
  match p.vals.find? (fun e => e.1 == k) with
  | some e => e.2
  | none => []

/-- Modelled from the spec: a parse-tree section (`section`): its header name
(`""` for the global section) and its ordered properties. -/
structure Section where
  name : String
  props : List (String × Property)
deriving Repr

/-- Modelled from the spec: `section.get` — property lookup by key.  A lookup
that finds nothing returns an empty result, not an error (spec data-model
invariant), so the `err` return in the Go callers is always `nil` here. -/
def Section.get (s : Section) (n : String) : Property :=
  match s.props.find? (fun e => e.1 == n) with
  | some e => e.2
  | none => ⟨[]⟩

/-- Modelled from the spec: the parse tree (`parseTree`): global properties
plus the ordered sections. -/
structure ParseTree where
  global : Section
  sections : List Section
deriving Repr

/-- Modelled from the spec: `parseTree.get` — all section instances carrying
the given name, in tree order; empty (and no error) when none match. -/
def ParseTree.get (t : ParseTree) (n : String) : List Section :=
  t.sections.filter (fun s => s.name == n)

/-- Errors produced by the decoder.  `typeErr v ty` is an
`UnmarshalTypeError` whose `val` is `v` and whose destination type is the
embedded `ty`; `topTypeErr` is the `UnmarshalTypeError` issued by `decode`
for a destination outside the embedded universe (non-pointer or non-struct);
`runtimePanic` marks the index-out-of-range panic of `vals[0]` on an empty
slice (Go crashes there rather than returning an error). -/
inductive DErr where
  | typeErr : String → Ty → DErr
  | topTypeErr : DErr
  | runtimePanic : DErr
deriving Repr

mutual

/-- The zero `Val` of a type: `""`, `0`, `false`, nil slice (modelled `[]`),
nil map (`mapv none`), and a record of zero fields. -/
def zeroVal : Ty → Val
  | Ty.str => Val.str ""
  | Ty.int _ => Val.int 0
  | Ty.uint _ => Val.uint 0
  | Ty.bool => Val.bool false
  | Ty.slice _ => Val.slice []
  | Ty.mapt _ => Val.mapv none
  | Ty.strct fs => Val.record (zeroFields fs)

/-- Zero values of a field list (the fresh element `reflect.MakeSlice` and
`reflect.New` produce). -/
def zeroFields : List FieldD → List Val
  | [] => []
  | f :: fs => zeroVal (fdTy f) :: zeroFields fs

end

/-! ### `strconv` models

`strconv.ParseInt(s, 10, 64)` / `ParseUint(s, 10, 64)` / `ParseBool(s)` as
used by `decodeInt` / `decodeUint` / `decodeBool`: base-10 only (so no
underscore digit separators), 64-bit range check, optional sign for the
signed form only. -/

/-- Numeric value of a decimal digit character. -/
def digitVal (c : Char) : Nat := c.toNat - 48

/-- Accumulator loop of base-10 digit parsing: `none` on the first non-digit
character. -/
def digitsValAux (acc : Nat) : List Char → Option Nat
  | [] => some acc
  | c :: cs => if c.isDigit then digitsValAux (acc * 10 + digitVal c) cs else none

/-- Base-10 value of a digit string; `none` when empty or when any character
is not a decimal digit. -/
def digitsVal (cs : List Char) : Option Nat :=
  match cs with
  | [] => none
  | _ => digitsValAux 0 cs

/-- `strconv.ParseUint(s, 10, 64)`: nonempty all-digit text (no sign prefix),
value below `2^64`, else an error (modelled `none`). -/
def parseUint64 (s : String) : Option Nat :=
  match digitsVal s.data with
  | some v => if v < 2 ^ 64 then some v else none
  | none => none

/-- `strconv.ParseInt(s, 10, 64)`: optional `+`/`-` sign followed by a
nonempty digit string; the value must fit in `int64`
(`-2^63 ≤ n ≤ 2^63 - 1`), else a range error (modelled `none`). -/
def parseInt64 (s : String) : Option Int :=
  match s.data with
  | [] => none
  | c :: cs =>
    if c = '-' then
      match digitsVal cs with
      | none => none
      | some v => if v ≤ 2 ^ 63 then some (-(v : Int)) else none
    else if c = '+' then
      match digitsVal cs with
      | none => none
      | some v => if v < 2 ^ 63 then some (v : Int) else none
    else
      match digitsVal (c :: cs) with
      | none => none
      | some v => if v < 2 ^ 63 then some (v : Int) else none

/-- `strconv.ParseBool`: exactly the literal forms Go accepts. -/
def parseBool (s : String) : Option Bool :=
  if s = "1" ∨ s = "t" ∨ s = "T" ∨ s = "TRUE" ∨ s = "true" ∨ s = "True" then some true
  else if s = "0" ∨ s = "f" ∨ s = "F" ∨ s = "FALSE" ∨ s = "false" ∨ s = "False" then some false
  else none

/-- Signed two's-complement truncation to width `w`: what
`reflect.Value.SetInt` does when storing an `int64` into a narrower signed
field (the Go conversion `intN(x)`). -/
def truncInt (w : Nat) (n : Int) : Int :=
  let m := n % (2 ^ w : Int)
  if m < 2 ^ (w - 1) then m else m - 2 ^ w

/-- Unsigned truncation to width `w` (`reflect.Value.SetUint`, the Go
conversion `uintN(x)`). -/
def truncUint (w : Nat) (n : Nat) : Nat := n % 2 ^ w

/-! ### Scalar decoders (`decodeString`, `decodeInt`, `decodeUint`,
`decodeBool` of `decode.go`)

Each takes the raw string taken from the parse tree and the destination
width; the dynamic `reflect` guards (`i` must be a string, `rv` a pointer)
hold at every modelled call site carrying a string.  On parse failure they
return an `UnmarshalTypeError` carrying the raw value
(`reflect.ValueOf(i).String()` is the string itself) and the destination
type; on success the parsed value is stored through the pointer, truncated
to the field's width by `SetInt`/`SetUint`. -/

/-- `decodeString`: stores the raw string verbatim (`SetString`); it cannot
fail on a string input. -/
def decodeStringGo (i : String) : Except DErr Val := Except.ok (Val.str i)

/-- `decodeInt`: `ParseInt(i, 10, 64)` then `SetInt` (truncating to the
destination width). -/
def decodeIntGo (i : String) (w : Nat) : Except DErr Val :=
  match parseInt64 i with
  | none => Except.error (DErr.typeErr i (Ty.int w))
  | some n => Except.ok (Val.int (truncInt w n))

/-- `decodeUint`: `ParseUint(i, 10, 64)` then `SetUint` (truncating to the
destination width). -/
def decodeUintGo (i : String) (w : Nat) : Except DErr Val :=
  match parseUint64 i with
  | none => Except.error (DErr.typeErr i (Ty.uint w))
  | some n => Except.ok (Val.uint (truncUint w n))

/-- `decodeBool`: `ParseBool` then `SetBool`. -/
def decodeBoolGo (i : String) : Except DErr Val :=
  match parseBool i with
  | none => Except.error (DErr.typeErr i Ty.bool)
  | some b => Except.ok (Val.bool b)

/-- Whether a type is one of the scalar kinds the element-decoder switches of
`decodeSlice` / `decodeMap` list (`String`, the `Int*`s, the `Uint*`s,
`Bool`; the `Float*` cases are outside the embedded universe). -/
def isScalarTy : Ty → Bool
  | Ty.str | Ty.int _ | Ty.uint _ | Ty.bool => true
  | _ => false

/-- Whether a type has `reflect.Kind` `Struct` (the
`Elem().Kind() == reflect.Struct` guards of `decodeStruct`). -/
def isStructTy : Ty → Bool
  | Ty.strct _ => true
  | _ => false

/-- The scalar `decoderFunc` dispatch of `decodeSlice` / `decodeMap` applied
to one raw string element. -/
def decodeScalarGo (i : String) : Ty → Except DErr Val
  | Ty.str => decodeStringGo i
  | Ty.int w => decodeIntGo i w
  | Ty.uint w => decodeUintGo i w
  | Ty.bool => decodeBoolGo i
  | ty => Except.error (DErr.typeErr i ty)

/-! ### Composite decoders (`decodeSlice`, `decodeMap`, `decodeStruct`,
`decode` of `decode.go`) -/

/-- The dynamic argument of `decodeSlice`: either the raw value sequence of a
property (`prop.get("")`, a `[]string`) or a group of section instances
(`tree.get(name)`, a `[]section`). -/
inductive SliceSrc where
  | strs : List String → SliceSrc
  | secs : List Section → SliceSrc
deriving Repr

/-- `reflect.ValueOf(v).String()` on the non-string slice sources (the
placeholder text Go produces for non-string values). -/
def srcDescr : SliceSrc → String
  | SliceSrc.strs _ => "<[]string Value>"
  | SliceSrc.secs _ => "<[]ini.section Value>"

/-- The element loop of `decodeSlice` for a scalar element kind: each raw
value converted independently, stopping at the first conversion error (the
destination field is only overwritten after the loop completes). -/
def convScalars (ty : Ty) : List String → Except DErr (List Val)
  | [] => Except.ok []
  | r :: rs =>
    match decodeScalarGo r ty with
    | Except.error e => Except.error e
    | Except.ok w =>
      match convScalars ty rs with
      | Except.ok ws => Except.ok (w :: ws)
      | Except.error e => Except.error e

/-- The entry loop of `decodeMap` for a scalar element kind: one output entry
per map-key of the property, converting only the first raw value of each
key's sequence (`val = v[0]`; an empty sequence would panic).  The Go loop
iterates the `vals` map in unspecified order; this model fixes source
order — a refinement the spec allows for unordered outputs.  The
`if elem kind is Slice then val = v` branch of the Go loop is dead code:
a `Slice` element kind is rejected by the `decoderFunc` switch before the
loop runs (see `decodeMapGo`). -/
def mapEntriesGo (ty : Ty) : List (String × List String) → Except DErr (List (String × Val))
  | [] => Except.ok []
  | (k, raws) :: rest =>
    match raws.head? with
    | none => Except.error DErr.runtimePanic
    | some r =>
      match decodeScalarGo r ty with
      | Except.error e => Except.error e
      | Except.ok w =>
        match mapEntriesGo ty rest with
        | Except.ok es => Except.ok ((k, w) :: es)
        | Except.error e => Except.error e

/-- `decodeMap`: the `decoderFunc` switch lists only the scalar element
kinds; any other element kind (notably `Slice` and `Map`) falls to the
`default` branch and returns an `UnmarshalTypeError` before any entry is
built.  On success the destination is overwritten with the freshly built
(non-nil) map. -/
def decodeMapGo (p : Property) (elemTy : Ty) : Except DErr Val :=
  if isScalarTy elemTy then
    match mapEntriesGo elemTy p.vals with
    | Except.ok es => Except.ok (Val.mapv (some es))
    | Except.error e => Except.error e
  else Except.error (DErr.typeErr "<ini.property Value>" (Ty.mapt elemTy))

/-- Scalar value lookup shared by the `String`/`Int*`/`Uint*`/`Bool` cases of
`decodeStruct`: absent property (`len(prop.vals) == 0`) skips the field;
a present property whose empty-map-key sequence is empty makes `vals[0]`
panic; otherwise the first raw value is converted. -/
inductive ScalarLookup where
  | skip : ScalarLookup
  | oob : ScalarLookup
  | val : String → ScalarLookup
deriving Repr

/-- The lookup steps `prop := s.get(name); if len(prop.vals) == 0 continue;
val := prop.get("")[0]` of the scalar cases of `decodeStruct`. -/
def lookupScalar (s : Section) (n : String) : ScalarLookup :=
  let prop := s.get n
  if prop.vals.isEmpty then ScalarLookup.skip
  else
    match (prop.get "").head? with
    | none => ScalarLookup.oob
    | some r => ScalarLookup.val r

mutual

/-- `decodeStruct`: binds one section's properties into a record's fields in
declared order, stopping at the first failing field; a failing field and all
fields after it keep their previous values (every single-field decode either
skips, fully overwrites, or fails without writing).  The record is the pair
of parallel lists `fs` (field declarations) and `vs` (current field
values). -/
def decodeStructGo (s : Section) : List FieldD → List Val → List Val × Option DErr
  | [], vs => (vs, none)
  | _ :: _, [] => ([], none)
  | f :: fs, v :: vs =>
    match decodeFieldGo s f v with
    | Except.error e => (v :: vs, some e)
    | Except.ok v2 =>
      let r := decodeStructGo s fs vs
      (v2 :: r.1, r.2)
termination_by fs _ => (sizeOf fs, 0, 0)

/-- One iteration of the field loop of `decodeStruct` (the `switch
sf.Type.Kind()`): slices of structs and maps of structs are silently
skipped, a string field named `ININame` receives the section's own name,
scalar kinds take the first raw value, and struct-kind fields have no case
in the switch at all (the depth-one limitation). -/
def decodeFieldGo (s : Section) : FieldD → Val → Except DErr Val
  | (nm, tg, ty), v =>
    let eff := tg.getD nm
    if eff = "-" then Except.ok v
    else
      match ty with
      | Ty.slice e =>
        if isStructTy e then Except.ok v
        else
          let raws := (s.get eff).get ""
          if raws.isEmpty then Except.ok v
          else decodeSliceGo (SliceSrc.strs raws) e
      | Ty.mapt e =>
        if isStructTy e then Except.ok v
        else decodeMapGo (s.get eff) e
      | Ty.str =>
        if nm = "ININame" then Except.ok (Val.str s.name)
        else
          match lookupScalar s eff with
          | ScalarLookup.skip => Except.ok v
          | ScalarLookup.oob => Except.error DErr.runtimePanic
          | ScalarLookup.val r => decodeStringGo r
      | Ty.int w =>
        match lookupScalar s eff with
        | ScalarLookup.skip => Except.ok v
        | ScalarLookup.oob => Except.error DErr.runtimePanic
        | ScalarLookup.val r => decodeIntGo r w
      | Ty.uint w =>
        match lookupScalar s eff with
        | ScalarLookup.skip => Except.ok v
        | ScalarLookup.oob => Except.error DErr.runtimePanic
        | ScalarLookup.val r => decodeUintGo r w
      | Ty.bool =>
        match lookupScalar s eff with
        | ScalarLookup.skip => Except.ok v
        | ScalarLookup.oob => Except.error DErr.runtimePanic
        | ScalarLookup.val r => decodeBoolGo r
      | Ty.strct _ => Except.ok v
termination_by f _ => (sizeOf f, 0, 0)

/-- `decodeSlice`: selects a `decoderFunc` by the destination element kind
(scalars, or `decodeStruct` for a struct element), then converts every
source element into a fresh slice; element kinds outside the switch fall to
the `default` branch and error.  Mismatched source/element pairings (raw
strings into a struct element, sections into a scalar element) fail on the
first element via the selected decoder's dynamic type guard — so an empty
source yields an empty slice even then. -/
def decodeSliceGo (src : SliceSrc) : Ty → Except DErr Val
  | Ty.strct fs =>
    match src with
    | SliceSrc.secs l =>
      match decodeSecElems fs l with
      | Except.ok ws => Except.ok (Val.slice ws)
      | Except.error e => Except.error e
    | SliceSrc.strs l =>
      match l with
      | [] => Except.ok (Val.slice [])
      | r :: _ => Except.error (DErr.typeErr r (Ty.strct fs))
  | ty =>
    if isScalarTy ty then
      match src with
      | SliceSrc.strs l =>
        match convScalars ty l with
        | Except.ok ws => Except.ok (Val.slice ws)
        | Except.error e => Except.error e
      | SliceSrc.secs l =>
        match l with
        | [] => Except.ok (Val.slice [])
        | _ => Except.error (DErr.typeErr "<ini.section Value>" ty)
    else Except.error (DErr.typeErr (srcDescr src) (Ty.slice ty))
termination_by ty => (sizeOf ty, 1, 0)

/-- The element loop of `decodeSlice` for a struct element kind: each section
instance is decoded by `decodeStruct` into a fresh zero element
(`reflect.MakeSlice` zeroes its elements). -/
def decodeSecElems (fs : List FieldD) : List Section → Except DErr (List Val)
  | [] => Except.ok []
  | sec :: rest =>
    match decodeStructGo sec fs (zeroFields fs) with
    | (_, some e) => Except.error e
    | (ws, none) =>
      match decodeSecElems fs rest with
      | Except.ok others => Except.ok (Val.record ws :: others)
      | Except.error e => Except.error e
termination_by l => (sizeOf fs, 0, sizeOf l)

end

/-- The destination argument of `decode` (a `reflect.Value`): a pointer to a
struct in the embedded universe, a pointer to something that is not a
struct, or a non-pointer value. -/
inductive Dest where
  | ptrStruct : List FieldD → List Val → Dest
  | ptrOther : Dest
  | nonPtr : Dest
deriving Repr

/-- One iteration of the section-binding loop of `decode` (lines 102-139):
only `Struct` and `Slice`-of-struct kinds are considered; a struct field
binds the first section instance of its group in place (so a mid-struct
error leaves that field partially updated), a slice-of-struct field is
rebuilt from every instance of the group and left unchanged on error. -/
def decodeTopFieldGo (tree : ParseTree) : FieldD → Val → Val × Option DErr
  | f, v =>
    if effName f = "-" then (v, none)
    else
      match fdTy f, v with
      | Ty.strct ifs, Val.record ivs =>
        match tree.get (effName f) with
        | [] => (v, none)
        | sec :: _ =>
          let r := decodeStructGo sec ifs ivs
          (Val.record r.1, r.2)
      | Ty.slice (Ty.strct ifs), _ =>
        let grp := tree.get (effName f)
        if grp.isEmpty then (v, none)
        else
          match decodeSliceGo (SliceSrc.secs grp) (Ty.strct ifs) with
          | Except.ok v2 => (v2, none)
          | Except.error e => (v, some e)
      | _, _ => (v, none)

/-- The section-binding loop of `decode` over the record's fields in
declared order, stopping at the first error. -/
def decodeSectionsGo (tree : ParseTree) : List FieldD → List Val → List Val × Option DErr
  | [], vs => (vs, none)
  | _ :: _, [] => ([], none)
  | f :: fs, v :: vs =>
    match decodeTopFieldGo tree f v with
    | (v2, some e) => (v2 :: vs, some e)
    | (v2, none) =>
      let r := decodeSectionsGo tree fs vs
      (v2 :: r.1, r.2)

/-- `decode`: rejects a non-pointer or non-struct destination with an
`UnmarshalTypeError` before touching any field, then binds the global
properties into all fields (first pass, via `decodeStruct`), then binds
sections into struct and slice-of-struct fields (second pass). -/
def decodeGo (tree : ParseTree) : Dest → Dest × Option DErr
  | Dest.nonPtr => (Dest.nonPtr, some DErr.topTypeErr)
  | Dest.ptrOther => (Dest.ptrOther, some DErr.topTypeErr)
  | Dest.ptrStruct fs vs =>
    match decodeStructGo tree.global fs vs with
    | (vs1, some e) => (Dest.ptrStruct fs vs1, some e)
    | (vs1, none) =>
      let r := decodeSectionsGo tree fs vs1
      (Dest.ptrStruct fs r.1, r.2)

/-! ### Spec-side description of base-10 integer text

Written from the spec's words ("parse as base-10 integer text"), independent
of the accumulator loop of the `strconv` model, to state the conversion
claims against. -/

/-- Positional value of a digit string: each digit weighted by ten to the
number of digits to its right. -/
def specDigitsVal : List Char → Nat
  | [] => 0
  | d :: ds => digitVal d * 10 ^ ds.length + specDigitsVal ds

/-- From the spec's words: base-10 integer text is an optional `+`/`-` sign
followed by at least one decimal digit; its value is the signed positional
value.  No range restriction — range is a separate concern of the claim. -/
def specBase10Int (s : String) : Option Int :=
  match s.data with
  | [] => none
  | c :: cs =>
    if c = '-' then
      if cs ≠ [] ∧ cs.all Char.isDigit then some (-(specDigitsVal cs : Int)) else none
    else if c = '+' then
      if cs ≠ [] ∧ cs.all Char.isDigit then some ((specDigitsVal cs : Int)) else none
    else if (c :: cs).all Char.isDigit then some ((specDigitsVal (c :: cs) : Int)) else none

/-- From the spec's words: base-10 unsigned integer text — at least one
decimal digit, no sign prefix. -/
def specBase10Uint (s : String) : Option Nat :=
  match s.data with
  | [] => none
  | ds => if ds.all Char.isDigit then some (specDigitsVal ds) else none

/-! ### Encoder (Bind Engine, encode direction)

Modelled from the spec: the encoder's source (`encode.go` / `Marshal`) is not
part of this repository snapshot; spec section 4.4 describes it as the
mirror of decoding, emitting at the parse-tree level: global properties from
the record's scalar / ordered-collection / keyed-collection fields, then one
section per nested-record field (named by the resolved field name, or by the
record's origin-name field value when present) and one section per element
of a collection-of-nested-records field.  Scalar rendering follows spec 4.5;
fields named by the reserved `-` are skipped; nil or empty collections emit
nothing.  The optional-field (`omitempty`) marker is not modelled: every
modelled field is emitted (encode of zero-valued unmarked fields is exactly
what the canonical example in the spec shows with `Encrypted=false`). -/

/-- Modelled from the spec: scalar rendering — strings verbatim, integers and
unsigned integers as base-10 text, booleans as `true`/`false`. -/
def renderScalar : Val → String
  | Val.str s => s
  | Val.int n => toString n
  | Val.uint n => toString n
  | Val.bool b => if b then "true" else "false"
  | _ => ""

/-- Modelled from the spec: the raw value sequence stored for one map entry —
the full sequence for a collection-valued entry, a single rendered value
otherwise. -/
def renderMapVal : Val → List String
  | Val.slice es => es.map renderScalar
  | w => [renderScalar w]

/-- Modelled from the spec: the properties one field contributes to its
enclosing section.  Scalars emit one single-valued property, ordered
collections one property holding the whole sequence under the empty map-key,
keyed collections one property with one map-key per entry; nested records
(and deeper shapes) contribute no properties at this level, and a string
field named `ININame` is the section's own name, not a property. -/
def encodeField (f : FieldD) (v : Val) : List (String × Property) :=
  if effName f = "-" then []
  else
    match fdTy f, v with
    | Ty.str, _ =>
      if fdName f = "ININame" then []
      else [(effName f, ⟨[("", [renderScalar v])]⟩)]
    | Ty.int _, _ => [(effName f, ⟨[("", [renderScalar v])]⟩)]
    | Ty.uint _, _ => [(effName f, ⟨[("", [renderScalar v])]⟩)]
    | Ty.bool, _ => [(effName f, ⟨[("", [renderScalar v])]⟩)]
    | Ty.slice _, Val.slice [] => []
    | Ty.slice _, Val.slice es => [(effName f, ⟨[("", es.map renderScalar)]⟩)]
    | Ty.mapt _, Val.mapv (some []) => []
    | Ty.mapt _, Val.mapv (some entries) =>
      [(effName f, ⟨entries.map (fun e => (e.1, renderMapVal e.2))⟩)]
    | _, _ => []

/-- Modelled from the spec: all properties of one record (field list zipped
with values), in declared order. -/
def encodeProps : List FieldD → List Val → List (String × Property)
  | f :: fs, v :: vs => encodeField f v ++ encodeProps fs vs
  | _, _ => []

/-- Modelled from the spec: the origin-name value of a record — the value of
its string field named `ININame`, when such a field exists. -/
def originName : List FieldD → List Val → Option String
  | f :: fs, v :: vs =>
    match fdTy f, v with
    | Ty.str, Val.str s => if fdName f = "ININame" then some s else originName fs vs
    | _, _ => originName fs vs
  | _, _ => none

/-- Modelled from the spec: the global properties and the section list an
entire record encodes to, walking the fields in declared order. -/
def encodeTop : List FieldD → List Val → List (String × Property) × List Section
  | f :: fs, v :: vs =>
    let rest := encodeTop fs vs
    if effName f = "-" then rest
    else
      match fdTy f, v with
      | Ty.strct ifs, Val.record ivs =>
        (rest.1, ⟨(originName ifs ivs).getD (effName f), encodeProps ifs ivs⟩ :: rest.2)
      | Ty.slice (Ty.strct ifs), Val.slice elems =>
        (rest.1,
          elems.map (fun ev =>
            match ev with
            | Val.record ivs => ⟨(originName ifs ivs).getD (effName f), encodeProps ifs ivs⟩
            | _ => ⟨effName f, []⟩) ++ rest.2)
      | _, _ => (encodeField f v ++ rest.1, rest.2)
  | _, _ => ([], [])

/-- Modelled from the spec: `encode` — the parse tree a record renders
through. -/
def encodeGo (fs : List FieldD) (vs : List Val) : ParseTree :=
  let r := encodeTop fs vs
  ⟨⟨"", r.1⟩, r.2⟩

/-! ## Theorems -/

/-- The accumulator loop on an all-digit string computes the positional
value, weighted under the accumulator. -/
theorem digitsValAux_all (ds : List Char) (h : ds.all Char.isDigit = true) :
    ∀ acc, digitsValAux acc ds = some (acc * 10 ^ ds.length + specDigitsVal ds) := by
  induction ds with
  | nil => intro acc; simp [digitsValAux, specDigitsVal]
  | cons c cs ih =>
    intro acc
    simp only [List.all_cons, Bool.and_eq_true] at h
    rw [digitsValAux, if_pos h.1, ih h.2]
    congr 1
    simp only [specDigitsVal, List.length_cons, pow_succ]
    ring

/-- The accumulator loop fails as soon as any character is not a digit. -/
theorem digitsValAux_not_all (ds : List Char) (h : ¬ ds.all Char.isDigit = true) :
    ∀ acc, digitsValAux acc ds = none := by
  induction ds with
  | nil => simp at h
  | cons c cs ih =>
    intro acc
    rw [digitsValAux]
    by_cases hc : c.isDigit
    · rw [if_pos hc]
      refine ih ?_ _
      simp only [List.all_cons, Bool.and_eq_true] at h
      tauto
    · rw [if_neg hc]

/-- `digitsVal` against the positional description: defined exactly on
nonempty all-digit strings. -/
theorem digitsVal_eq_spec (ds : List Char) :
    digitsVal ds =
      if ds ≠ [] ∧ ds.all Char.isDigit = true then some (specDigitsVal ds) else none := by
  match ds with
  | [] => simp [digitsVal]
  | c :: cs =>
    by_cases h : (c :: cs).all Char.isDigit
    · rw [show digitsVal (c :: cs) = digitsValAux 0 (c :: cs) from rfl,
        digitsValAux_all _ h, if_pos ⟨List.cons_ne_nil c cs, h⟩]
      simp
    · rw [show digitsVal (c :: cs) = digitsValAux 0 (c :: cs) from rfl,
        digitsValAux_not_all _ h]
      rw [if_neg]
      tauto

/-- The negative branch of `ParseInt` against the range-checked positional
value. -/
theorem parseInt64_negBranch (ds : List Char) :
    (match digitsVal ds with
     | none => none
     | some v => if v ≤ 2 ^ 63 then some (-(v : Int)) else none) =
    (if ds ≠ [] ∧ ds.all Char.isDigit = true
       then some (-(specDigitsVal ds : Int)) else none).bind
      (fun n => if -(2 ^ 63) ≤ n ∧ n < 2 ^ 63 then some n else none) := by
  rw [digitsVal_eq_spec]
  by_cases hc : ds ≠ [] ∧ ds.all Char.isDigit = true
  · rw [if_pos hc, if_pos hc, Option.some_bind]
    show (if specDigitsVal ds ≤ 2 ^ 63 then some (-(specDigitsVal ds : Int)) else none) = _
    have h0 : (0 : Int) ≤ (specDigitsVal ds : Int) := Int.ofNat_nonneg _
    split_ifs with h1 h2 h2
    · rfl
    · exact absurd ⟨by omega, by omega⟩ h2
    · exfalso; omega
    · rfl
  · rw [if_neg hc, if_neg hc, Option.none_bind]

/-- The non-negative branch of `ParseInt` against the range-checked
positional value. -/
theorem parseInt64_posBranch (ds : List Char) :
    (match digitsVal ds with
     | none => none
     | some v => if v < 2 ^ 63 then some ((v : Int)) else none) =
    (if ds ≠ [] ∧ ds.all Char.isDigit = true
       then some ((specDigitsVal ds : Int)) else none).bind
      (fun n => if -(2 ^ 63) ≤ n ∧ n < 2 ^ 63 then some n else none) := by
  rw [digitsVal_eq_spec]
  by_cases hc : ds ≠ [] ∧ ds.all Char.isDigit = true
  · rw [if_pos hc, if_pos hc, Option.some_bind]
    show (if specDigitsVal ds < 2 ^ 63 then some ((specDigitsVal ds : Int)) else none) = _
    have h0 : (0 : Int) ≤ (specDigitsVal ds : Int) := Int.ofNat_nonneg _
    split_ifs with h1 h2 h2
    · rfl
    · exact absurd ⟨by omega, by omega⟩ h2
    · exfalso; omega
    · rfl
  · rw [if_neg hc, if_neg hc, Option.none_bind]

/-- `strconv.ParseInt(s, 10, 64)` refines the spec's "base-10 integer text":
it returns exactly the positional value when that value fits in `int64`, and
fails otherwise. -/
theorem parseInt64_eq_spec (s : String) :
    parseInt64 s = (specBase10Int s).bind
      (fun n => if -(2 ^ 63) ≤ n ∧ n < 2 ^ 63 then some n else none) := by
  cases hd : s.data with
  | nil => simp [parseInt64, specBase10Int, hd]
  | cons c cs =>
    simp only [parseInt64, specBase10Int, hd]
    by_cases hm : c = '-'
    · rw [if_pos hm, if_pos hm]
      exact parseInt64_negBranch cs
    · by_cases hp : c = '+'
      · rw [if_neg hm, if_neg hm, if_pos hp, if_pos hp]
        exact parseInt64_posBranch cs
      · rw [if_neg hm, if_neg hm, if_neg hp, if_neg hp]
        have h := parseInt64_posBranch (c :: cs)
        rw [h]
        congr 1
        simp [List.cons_ne_nil]

/-- `strconv.ParseUint(s, 10, 64)` refines the spec's unsigned base-10 text:
the positional value when it fits in 64 bits, failure otherwise. -/
theorem parseUint64_eq_spec (s : String) :
    parseUint64 s = (specBase10Uint s).bind
      (fun m => if m < 2 ^ 64 then some m else none) := by
  cases hd : s.data with
  | nil => simp [parseUint64, specBase10Uint, hd, digitsVal]
  | cons c cs =>
    simp only [parseUint64, specBase10Uint, hd]
    rw [digitsVal_eq_spec]
    by_cases hall : (c :: cs).all Char.isDigit
    · simp [hall]
    · simp [hall]

/-- C8 (counterexample): `"300"` is base-10 integer text whose value 300
lies outside the `int8` destination range (max `2^7 - 1 = 127`), yet
`decodeInt` into an 8-bit field succeeds and silently stores the truncated
value 44 (`int8(300)`), instead of returning a conversion failure — refuting
the claim that a value outside the destination type's range is a typed
conversion failure and never a silently truncated store. -/
theorem c8_counterexample :
    specBase10Int "300" = some 300 ∧
    (2 ^ 7 - 1 : Int) < 300 ∧
    decodeIntGo "300" 8 = Except.ok (Val.int 44) ∧
    Val.int 44 ≠ Val.int 300 := by
  refine ⟨by rfl, by norm_num, by rfl, ?_⟩
  intro h
  cases h

/-- C8 (amended): integer and unsigned-integer destinations parse the raw
string as base-10 integer text with a 64-bit range check: non-numeric text,
or a value outside the 64-bit range, yields a typed conversion failure
carrying the raw value and the destination type; a value inside the 64-bit
range is stored truncated to the destination width (exact for 64-bit
fields, silently truncated modulo `2^w` for narrower ones), never a
crash. -/
theorem c8_amended (s : String) (w : Nat) :
    (specBase10Int s = none → decodeIntGo s w = Except.error (DErr.typeErr s (Ty.int w))) ∧
    (∀ n : Int, specBase10Int s = some n →
      ((-(2 ^ 63) ≤ n ∧ n < 2 ^ 63) → decodeIntGo s w = Except.ok (Val.int (truncInt w n))) ∧
      ((n < -(2 ^ 63) ∨ 2 ^ 63 ≤ n) →
        decodeIntGo s w = Except.error (DErr.typeErr s (Ty.int w)))) ∧
    (specBase10Uint s = none → decodeUintGo s w = Except.error (DErr.typeErr s (Ty.uint w))) ∧
    (∀ m : Nat, specBase10Uint s = some m →
      (m < 2 ^ 64 → decodeUintGo s w = Except.ok (Val.uint (truncUint w m))) ∧
      (2 ^ 64 ≤ m → decodeUintGo s w = Except.error (DErr.typeErr s (Ty.uint w)))) := by
  refine ⟨?_, ?_, ?_, ?_⟩
  · intro h
    rw [decodeIntGo, parseInt64_eq_spec, h, Option.none_bind]
  · intro n h
    constructor
    · intro hr
      rw [decodeIntGo, parseInt64_eq_spec, h, Option.some_bind, if_pos hr]
    · intro hr
      rw [decodeIntGo, parseInt64_eq_spec, h, Option.some_bind,
        if_neg (by rcases hr with hr | hr <;> rintro ⟨h1, h2⟩ <;> omega)]
  · intro h
    rw [decodeUintGo, parseUint64_eq_spec, h, Option.none_bind]
  · intro m h
    constructor
    · intro hr
      rw [decodeUintGo, parseUint64_eq_spec, h, Option.some_bind, if_pos hr]
    · intro hr
      rw [decodeUintGo, parseUint64_eq_spec, h, Option.some_bind, if_neg (by omega)]

/-- C8 (witness): the amended theorem applied at `"300"` into an 8-bit
signed field and at `"7"` into a 64-bit unsigned field. -/
theorem c8_witness :
    decodeIntGo "300" 8 = Except.ok (Val.int (truncInt 8 300)) ∧
    decodeUintGo "7" 64 = Except.ok (Val.uint (truncUint 64 7)) :=
  ⟨((c8_amended "300" 8).2.1 300 (by rfl)).1 (by decide),
   ((c8_amended "7" 64).2.2.2 7 (by rfl)).1 (by decide)⟩

/-- C2: a section whose source text carried the key `P` twice (value
sequence `["1", "2"]` under the empty map-key) decoded into a record whose
`P` field is a non-collection (`int64`) does NOT return a type-mismatch
error: it silently binds the first of the two values and reports success —
contradicting the claim (and the `Unmarshal` doc comment's "If the
destination struct field is not a slice type, an error is returned"). -/
theorem c2_duplicate_key_silently_bound :
    ((Section.mk "S" [("P", ⟨[("", ["1", "2"])]⟩)]).get "P").get "" = ["1", "2"] ∧
    decodeStructGo ⟨"S", [("P", ⟨[("", ["1", "2"])]⟩)]⟩ [("P", none, Ty.int 64)] [Val.int 0]
      = ([Val.int 1], none) := by
  constructor
  · rfl
  · simp [decodeStructGo, decodeFieldGo, lookupScalar, Section.get, Property.get,
      decodeIntGo, parseInt64, digitsVal, digitsValAux, digitVal, truncInt,
      List.find?, effName]

/-- C4: a keyed-collection destination whose element type is itself a
collection (`map[string][]string`) is rejected by `decodeMap` with an
`UnmarshalTypeError` — the `decoderFunc` switch has no `Slice` case, so the
`val = v` full-sequence branch of the entry loop is unreachable — refuting
the claim that such an entry receives the full raw value sequence.  The
second conjunct shows the same through the field loop of `decodeStruct` on a
present two-value property. -/
theorem c4_map_of_collection_rejected :
    decodeMapGo ⟨[("k", ["a", "b"])]⟩ (Ty.slice Ty.str)
      = Except.error (DErr.typeErr "<ini.property Value>" (Ty.mapt (Ty.slice Ty.str))) ∧
    decodeFieldGo ⟨"S", [("M", ⟨[("k", ["a", "b"])]⟩)]⟩
        ("M", none, Ty.mapt (Ty.slice Ty.str)) (Val.mapv none)
      = Except.error (DErr.typeErr "<ini.property Value>" (Ty.mapt (Ty.slice Ty.str))) := by
  constructor
  · rfl
  · simp [decodeFieldGo, decodeMapGo, isScalarTy, isStructTy, Section.get, Property.get,
      List.find?, effName]

/-- C6: `decode` on a destination that is not a pointer, or whose pointee is
not a struct, returns an `UnmarshalTypeError` immediately, for every parse
tree, leaving the destination untouched — no field is ever bound. -/
theorem c6_top_level_type_error (tree : ParseTree) :
    decodeGo tree Dest.nonPtr = (Dest.nonPtr, some DErr.topTypeErr) ∧
    decodeGo tree Dest.ptrOther = (Dest.ptrOther, some DErr.topTypeErr) :=
  ⟨rfl, rfl⟩

/-- C1: the record `x = {M : map[string][]string = {"k" ↦ ["a", "b"]}}` uses
only shapes the spec lists as supported (a keyed collection whose entries
hold the raw value sequence), and every field of `x` is non-zero; encoding
it produces the expected parse tree, but decoding that tree back into a
fresh zero record fails with an `UnmarshalTypeError` (the `decodeMap`
element-kind switch rejects collection elements), so `decode(encode(x))`
is an error and reproduces nothing — refuting the round-trip law at this
input. -/
theorem c1_roundtrip_fails :
    encodeGo [("M", none, Ty.mapt (Ty.slice Ty.str))]
        [Val.mapv (some [("k", Val.slice [Val.str "a", Val.str "b"])])]
      = ⟨⟨"", [("M", ⟨[("k", ["a", "b"])]⟩)]⟩, []⟩ ∧
    decodeGo
        (encodeGo [("M", none, Ty.mapt (Ty.slice Ty.str))]
          [Val.mapv (some [("k", Val.slice [Val.str "a", Val.str "b"])])])
        (Dest.ptrStruct [("M", none, Ty.mapt (Ty.slice Ty.str))]
          (zeroFields [("M", none, Ty.mapt (Ty.slice Ty.str))]))
      = (Dest.ptrStruct [("M", none, Ty.mapt (Ty.slice Ty.str))] [Val.mapv none],
          some (DErr.typeErr "<ini.property Value>" (Ty.mapt (Ty.slice Ty.str)))) := by
  constructor
  · rfl
  · simp [decodeGo, decodeStructGo, decodeFieldGo, decodeMapGo, isScalarTy, isStructTy,
      encodeGo, encodeTop, encodeField, originName, renderMapVal, renderScalar,
      zeroFields, zeroVal, fdTy, fdName, fdTag, Section.get, Property.get,
      List.find?, effName]

/-- C5 (counterexample): decoding an entirely empty parse tree into a record
with one keyed-collection field `M : map[string]string` returns no error but
does not leave `M` at its zero value: the `Map` case of `decodeStruct` has
no absent-property skip, so `decodeMap` runs on the empty property and
overwrites the field with a fresh empty (non-nil) map, while the type's zero
value is the nil map. -/
theorem c5_counterexample :
    decodeGo ⟨⟨"", []⟩, []⟩
        (Dest.ptrStruct [("M", none, Ty.mapt Ty.str)] [Val.mapv none])
      = (Dest.ptrStruct [("M", none, Ty.mapt Ty.str)] [Val.mapv (some [])], none) ∧
    zeroVal (Ty.mapt Ty.str) = Val.mapv none ∧
    Val.mapv (some []) ≠ Val.mapv none := by
  refine ⟨?_, rfl, ?_⟩
  · simp [decodeGo, decodeStructGo, decodeFieldGo, decodeSectionsGo, decodeTopFieldGo,
      decodeMapGo, mapEntriesGo, isScalarTy, isStructTy, Section.get, Property.get,
      List.find?, effName, fdTy, fdName, fdTag]
  · intro h
    injection h with h2
    cases h2

/-- C5 (amended): a non-required destination field with no matching property
(and, for section-shaped fields, no matching section) decodes without error;
scalar, ordered-collection and nested-record fields are left untouched at
their previous (zero) value, but a keyed-collection field with scalar
elements is overwritten with an empty non-nil collection rather than left at
the nil zero value.  (A string field named `ININame` is excluded: it is
bound from the section name, not from a property.) -/
theorem c5_amended :
    (∀ (s : Section) (nm : String) (tg : Option String) (ty : Ty) (v : Val),
      effName (nm, tg, ty) ≠ "-" →
      s.props.find? (fun e => e.1 == effName (nm, tg, ty)) = none →
      nm ≠ "ININame" →
      ((isScalarTy ty = true → decodeFieldGo s (nm, tg, ty) v = Except.ok v) ∧
       (∀ e, ty = Ty.slice e → decodeFieldGo s (nm, tg, ty) v = Except.ok v) ∧
       (∀ ifs, ty = Ty.strct ifs → decodeFieldGo s (nm, tg, ty) v = Except.ok v) ∧
       (∀ e, ty = Ty.mapt e → isScalarTy e = true →
          decodeFieldGo s (nm, tg, ty) v = Except.ok (Val.mapv (some []))))) ∧
    (∀ (tree : ParseTree) (nm : String) (tg : Option String) (ty : Ty) (v : Val),
      tree.get (effName (nm, tg, ty)) = [] →
      (decodeTopFieldGo tree (nm, tg, ty) v = (v, none))) := by
  constructor
  · intro s nm tg ty v heff hfind hnm
    have heff2 : ¬ tg.getD nm = "-" := by
      simpa [effName, fdTag, fdName] using heff
    have hget : s.get (tg.getD nm) = ⟨[]⟩ := by
      unfold Section.get
      rw [show (tg.getD nm) = effName (nm, tg, ty) from rfl, hfind]
    refine ⟨?_, ?_, ?_, ?_⟩
    · intro hsc
      cases ty with
      | str =>
        simp [decodeFieldGo, heff2, hnm, lookupScalar, hget, Property.get]
      | int w =>
        simp [decodeFieldGo, heff2, lookupScalar, hget, Property.get]
      | uint w =>
        simp [decodeFieldGo, heff2, lookupScalar, hget, Property.get]
      | bool =>
        simp [decodeFieldGo, heff2, lookupScalar, hget, Property.get]
      | slice e => simp [isScalarTy] at hsc
      | mapt e => simp [isScalarTy] at hsc
      | strct ifs => simp [isScalarTy] at hsc
    · rintro e rfl
      by_cases hstr : isStructTy e
      · simp [decodeFieldGo, heff2, hstr]
      · simp [decodeFieldGo, heff2, hstr, hget, Property.get]
    · rintro ifs rfl
      simp [decodeFieldGo, heff2]
    · rintro e rfl hsc
      have hstr : isStructTy e = false := by
        cases e <;> simp_all [isScalarTy, isStructTy]
      simp [decodeFieldGo, heff2, hstr, hget, decodeMapGo, hsc, mapEntriesGo]
  · intro tree nm tg ty v hget
    by_cases heff : effName (nm, tg, ty) = "-"
    · simp [decodeTopFieldGo, heff]
    · cases ty with
      | strct ifs =>
        cases v <;> simp [decodeTopFieldGo, heff, fdTy, fdName, fdTag, hget]
      | slice e =>
        cases e <;> simp [decodeTopFieldGo, heff, fdTy, fdName, fdTag, hget]
      | str => simp [decodeTopFieldGo, heff, fdTy]
      | int w => simp [decodeTopFieldGo, heff, fdTy]
      | uint w => simp [decodeTopFieldGo, heff, fdTy]
      | bool => simp [decodeTopFieldGo, heff, fdTy]
      | mapt e => simp [decodeTopFieldGo, heff, fdTy]

/-- C5 (witness): the amended theorem applied concretely — an absent
property leaves an `int64` field untouched, overwrites a `map[string]string`
field with the empty non-nil map, and an absent section leaves a nested
record untouched. -/
theorem c5_witness :
    decodeFieldGo ⟨"Z", [("Other", ⟨[("", ["x"])]⟩)]⟩ ("N", none, Ty.int 64) (Val.int 3)
      = Except.ok (Val.int 3) ∧
    decodeFieldGo ⟨"Z", [("Other", ⟨[("", ["x"])]⟩)]⟩ ("M", none, Ty.mapt Ty.str) (Val.mapv none)
      = Except.ok (Val.mapv (some [])) ∧
    decodeTopFieldGo ⟨⟨"", []⟩, [⟨"Other", []⟩]⟩ ("A", none, Ty.strct []) (Val.record [])
      = (Val.record [], none) :=
  ⟨(c5_amended.1 ⟨"Z", [("Other", ⟨[("", ["x"])]⟩)]⟩ "N" none (Ty.int 64) (Val.int 3)
      (by decide) (by rfl) (by decide)).1 (by rfl),
   (c5_amended.1 ⟨"Z", [("Other", ⟨[("", ["x"])]⟩)]⟩ "M" none (Ty.mapt Ty.str) (Val.mapv none)
      (by decide) (by rfl) (by decide)).2.2.2 Ty.str rfl (by rfl),
   c5_amended.2 ⟨⟨"", []⟩, [⟨"Other", []⟩]⟩ "A" none (Ty.strct []) (Val.record []) (by rfl)⟩

/-- C7: a top-level nested-record field with no section instance of its
resolved name is left untouched with no error; when instances exist, exactly
the first one is bound (the result is a function of the head of the group
alone), and appending a later duplicate section — even one carrying the same
name — never changes the binding. -/
theorem c7_nested_record_first_instance
    (tree : ParseTree) (nm : String) (tg : Option String)
    (ifs : List FieldD) (ivs : List Val)
    (heff : effName (nm, tg, Ty.strct ifs) ≠ "-") :
    (tree.get (effName (nm, tg, Ty.strct ifs)) = [] →
      decodeTopFieldGo tree (nm, tg, Ty.strct ifs) (Val.record ivs) = (Val.record ivs, none)) ∧
    (∀ sec rest, tree.get (effName (nm, tg, Ty.strct ifs)) = sec :: rest →
      decodeTopFieldGo tree (nm, tg, Ty.strct ifs) (Val.record ivs) =
        (Val.record (decodeStructGo sec ifs ivs).1, (decodeStructGo sec ifs ivs).2)) ∧
    (∀ extra, tree.get (effName (nm, tg, Ty.strct ifs)) ≠ [] →
      decodeTopFieldGo ⟨tree.global, tree.sections ++ [extra]⟩
          (nm, tg, Ty.strct ifs) (Val.record ivs) =
        decodeTopFieldGo tree (nm, tg, Ty.strct ifs) (Val.record ivs)) := by
  have h2 : ∀ (t : ParseTree) (sec : Section) (rest : List Section),
      t.get (effName (nm, tg, Ty.strct ifs)) = sec :: rest →
      decodeTopFieldGo t (nm, tg, Ty.strct ifs) (Val.record ivs) =
        (Val.record (decodeStructGo sec ifs ivs).1, (decodeStructGo sec ifs ivs).2) := by
    intro t sec rest h
    simp [decodeTopFieldGo, heff, fdTy, h]
  refine ⟨?_, h2 tree, ?_⟩
  · intro h
    simp [decodeTopFieldGo, heff, fdTy, h]
  · intro extra hne
    obtain ⟨sec, rest, hsec⟩ : ∃ sec rest,
        tree.get (effName (nm, tg, Ty.strct ifs)) = sec :: rest := by
      cases h : tree.get (effName (nm, tg, Ty.strct ifs)) with
      | nil => exact absurd h hne
      | cons a l => exact ⟨a, l, rfl⟩
    have happ : (ParseTree.mk tree.global (tree.sections ++ [extra])).get
        (effName (nm, tg, Ty.strct ifs)) =
        sec :: (rest ++
          [extra].filter (fun s => s.name == effName (nm, tg, Ty.strct ifs))) := by
      unfold ParseTree.get at hsec ⊢
      rw [List.filter_append, hsec, List.cons_append]
    rw [h2 _ _ _ happ, h2 _ _ _ hsec]

/-- C7 (witness): a tree holding two sections named `A` binds exactly the
first (`X=1`, not `X=2`) into the nested record, and a tree with no `A`
section leaves the record untouched. -/
theorem c7_witness :
    decodeTopFieldGo
        ⟨⟨"", []⟩, [⟨"A", [("X", ⟨[("", ["1"])]⟩)]⟩, ⟨"A", [("X", ⟨[("", ["2"])]⟩)]⟩]⟩
        ("A", none, Ty.strct [("X", none, Ty.int 64)]) (Val.record [Val.int 0])
      = (Val.record [Val.int 1], none) ∧
    decodeTopFieldGo ⟨⟨"", []⟩, []⟩
        ("A", none, Ty.strct [("X", none, Ty.int 64)]) (Val.record [Val.int 0])
      = (Val.record [Val.int 0], none) := by
  constructor
  · rw [(c7_nested_record_first_instance
        ⟨⟨"", []⟩, [⟨"A", [("X", ⟨[("", ["1"])]⟩)]⟩, ⟨"A", [("X", ⟨[("", ["2"])]⟩)]⟩]⟩
        "A" none [("X", none, Ty.int 64)] [Val.int 0] (by decide)).2.1
        ⟨"A", [("X", ⟨[("", ["1"])]⟩)]⟩ [⟨"A", [("X", ⟨[("", ["2"])]⟩)]⟩] (by rfl)]
    simp [decodeStructGo, decodeFieldGo, lookupScalar, Section.get, Property.get,
      decodeIntGo, parseInt64, digitsVal, digitsValAux, digitVal, truncInt,
      List.find?, effName]
  · exact (c7_nested_record_first_instance ⟨⟨"", []⟩, []⟩
      "A" none [("X", none, Ty.int 64)] [Val.int 0] (by decide)).1 (by rfl)

/-- C9 (counterexample): `decode` makes two passes, so stopping at the first
failing field does not protect later-declared fields.  Record
`{A struct{X int64}; B int64}`, tree with global property `B=5` and section
`[A]` with malformed `X=oops`: the global pass sets `B := 5`, then the
section pass fails while processing field 0 (`A`) — yet field 1 (`B`),
after the failing field in declaration order, was already changed from its
pre-call value 0 to 5, refuting the claim that every field after the
failing one is unchanged. -/
theorem c9_counterexample :
    decodeGo ⟨⟨"", [("B", ⟨[("", ["5"])]⟩)]⟩, [⟨"A", [("X", ⟨[("", ["oops"])]⟩)]⟩]⟩
        (Dest.ptrStruct
          [("A", none, Ty.strct [("X", none, Ty.int 64)]), ("B", none, Ty.int 64)]
          [Val.record [Val.int 0], Val.int 0])
      = (Dest.ptrStruct
          [("A", none, Ty.strct [("X", none, Ty.int 64)]), ("B", none, Ty.int 64)]
          [Val.record [Val.int 0], Val.int 5],
         some (DErr.typeErr "oops" (Ty.int 64))) ∧
    (decodeTopFieldGo ⟨⟨"", [("B", ⟨[("", ["5"])]⟩)]⟩, [⟨"A", [("X", ⟨[("", ["oops"])]⟩)]⟩]⟩
        ("A", none, Ty.strct [("X", none, Ty.int 64)]) (Val.record [Val.int 0])).2
      = some (DErr.typeErr "oops" (Ty.int 64)) ∧
    Val.int 5 ≠ Val.int 0 := by
  refine ⟨?_, ?_, ?_⟩
  · simp [decodeGo, decodeStructGo, decodeFieldGo, decodeSectionsGo, decodeTopFieldGo,
      lookupScalar, Section.get, Property.get, ParseTree.get, decodeIntGo, parseInt64,
      digitsVal, digitsValAux, digitVal, truncInt, List.find?, List.filter, effName,
      fdTy, fdName, fdTag]
  · simp [decodeTopFieldGo, decodeStructGo, decodeFieldGo, lookupScalar, Section.get,
      Property.get, ParseTree.get, decodeIntGo, parseInt64, digitsVal, digitsValAux,
      digitVal, List.find?, List.filter, effName, fdTy, fdName, fdTag]
  · intro h
    injection h with h2
    exact absurd h2 (by decide)

/-- C9 (amended): each single pass is prefix-framed.  `decodeStruct`
processes fields in declared order and, on error, some field `i` failed via
its single-field decode and every field from `i` onward (the failing field
included) still holds its pre-call value; the section-binding loop of
`decode` satisfies the same with the failing field itself possibly partially
updated (in-place nested-struct binding).  An error from the full `decode`
therefore bounds modification by the passes already run, not by the failing
field's declaration position: the global pass may already have modified any
field when the section pass fails. -/
theorem c9_amended :
    (∀ (s : Section) (fs : List FieldD) (vs : List Val) (e : DErr),
      (decodeStructGo s fs vs).2 = some e →
      ∃ i f v, fs.get? i = some f ∧ vs.get? i = some v ∧
        decodeFieldGo s f v = Except.error e ∧
        (decodeStructGo s fs vs).1.drop i = vs.drop i) ∧
    (∀ (tree : ParseTree) (fs : List FieldD) (vs : List Val) (e : DErr),
      (decodeSectionsGo tree fs vs).2 = some e →
      ∃ i f v, fs.get? i = some f ∧ vs.get? i = some v ∧
        (decodeTopFieldGo tree f v).2 = some e ∧
        (decodeSectionsGo tree fs vs).1.drop (i + 1) = vs.drop (i + 1)) := by
  constructor
  · intro s fs
    induction fs with
    | nil => intro vs e h; simp [decodeStructGo] at h
    | cons f fs ih =>
      intro vs e h
      cases vs with
      | nil => simp [decodeStructGo] at h
      | cons v vs =>
        cases hf : decodeFieldGo s f v with
        | error e0 =>
          have hstep : decodeStructGo s (f :: fs) (v :: vs) = (v :: vs, some e0) := by
            simp [decodeStructGo, hf]
          rw [hstep] at h
          obtain rfl : e0 = e := by simpa using h
          exact ⟨0, f, v, rfl, rfl, hf, by rw [hstep]⟩
        | ok v2 =>
          have hstep : decodeStructGo s (f :: fs) (v :: vs) =
              (v2 :: (decodeStructGo s fs vs).1, (decodeStructGo s fs vs).2) := by
            simp [decodeStructGo, hf]
          rw [hstep] at h
          obtain ⟨i, f0, v0, h1, h2, h3, h4⟩ := ih vs e h
          refine ⟨i + 1, f0, v0, by simpa using h1, by simpa using h2, h3, ?_⟩
          rw [hstep]
          simpa [List.drop_succ_cons] using h4
  · intro tree fs
    induction fs with
    | nil => intro vs e h; simp [decodeSectionsGo] at h
    | cons f fs ih =>
      intro vs e h
      cases vs with
      | nil => simp [decodeSectionsGo] at h
      | cons v vs =>
        cases hpair : decodeTopFieldGo tree f v with
        | mk v2 oe =>
          cases oe with
          | some e0 =>
            have hstep : decodeSectionsGo tree (f :: fs) (v :: vs) = (v2 :: vs, some e0) := by
              simp [decodeSectionsGo, hpair]
            rw [hstep] at h
            obtain rfl : e0 = e := by simpa using h
            refine ⟨0, f, v, rfl, rfl, by rw [hpair], ?_⟩
            rw [hstep]
            simp
          | none =>
            have hstep : decodeSectionsGo tree (f :: fs) (v :: vs) =
                (v2 :: (decodeSectionsGo tree fs vs).1, (decodeSectionsGo tree fs vs).2) := by
              simp [decodeSectionsGo, hpair]
            rw [hstep] at h
            obtain ⟨i, f0, v0, h1, h2, h3, h4⟩ := ih vs e h
            refine ⟨i + 1, f0, v0, by simpa using h1, by simpa using h2, h3, ?_⟩
            rw [hstep]
            simpa [List.drop_succ_cons] using h4

/-- C9 (witness): the amended frame property applied to a one-field record
whose `int64` field fails on the malformed value `"z"`. -/
theorem c9_witness :
    ∃ i f v, ([("X", none, Ty.int 64)] : List FieldD).get? i = some f ∧
      ([Val.int 7] : List Val).get? i = some v ∧
      decodeFieldGo ⟨"S", [("X", ⟨[("", ["z"])]⟩)]⟩ f v
        = Except.error (DErr.typeErr "z" (Ty.int 64)) ∧
      (decodeStructGo ⟨"S", [("X", ⟨[("", ["z"])]⟩)]⟩
          [("X", none, Ty.int 64)] [Val.int 7]).1.drop i
        = ([Val.int 7] : List Val).drop i :=
  c9_amended.1 ⟨"S", [("X", ⟨[("", ["z"])]⟩)]⟩ [("X", none, Ty.int 64)] [Val.int 7]
    (DErr.typeErr "z" (Ty.int 64))
    (by simp [decodeStructGo, decodeFieldGo, lookupScalar, Section.get, Property.get,
      decodeIntGo, parseInt64, digitsVal, digitsValAux, List.find?, effName])

/-- Every element of the scalar conversion loop succeeding, the loop yields
exactly one converted element per raw value, in order. -/
theorem convScalars_all_ok (ty : Ty) : ∀ (l : List String),
    (∀ r ∈ l, ∃ w, decodeScalarGo r ty = Except.ok w) →
    ∃ ws, convScalars ty l = Except.ok ws ∧
      List.Forall₂ (fun r w => decodeScalarGo r ty = Except.ok w) l ws := by
  intro l
  induction l with
  | nil => intro _; exact ⟨[], rfl, List.Forall₂.nil⟩
  | cons r rs ih =>
    intro h
    obtain ⟨w, hw⟩ := h r (List.mem_cons_self r rs)
    obtain ⟨ws, hws, hrel⟩ := ih (fun x hx => h x (List.mem_cons_of_mem r hx))
    refine ⟨w :: ws, ?_, List.Forall₂.cons hw hrel⟩
    rw [convScalars, hw, hws]

/-- C3: an ordered-collection-of-scalars field decodes the property's value
sequence under the empty map-key elementwise: an empty sequence leaves the
field untouched; a nonempty sequence of length `N` whose elements all
convert yields a collection of exactly `N` elements where element `i` is the
independent conversion of the `i`-th raw value, in source order (so a single
non-duplicated occurrence yields a one-element collection). -/
theorem c3_slice_decode_elementwise
    (s : Section) (nm : String) (tg : Option String) (e : Ty) (v : Val)
    (hsc : isScalarTy e = true) (heff : effName (nm, tg, Ty.slice e) ≠ "-") :
    (((s.get (effName (nm, tg, Ty.slice e))).get "" = []) →
      decodeFieldGo s (nm, tg, Ty.slice e) v = Except.ok v) ∧
    ((s.get (effName (nm, tg, Ty.slice e))).get "" ≠ [] →
      (∀ r ∈ (s.get (effName (nm, tg, Ty.slice e))).get "",
        ∃ w, decodeScalarGo r e = Except.ok w) →
      ∃ ws, decodeFieldGo s (nm, tg, Ty.slice e) v = Except.ok (Val.slice ws) ∧
        ws.length = ((s.get (effName (nm, tg, Ty.slice e))).get "").length ∧
        List.Forall₂ (fun r w => decodeScalarGo r e = Except.ok w)
          ((s.get (effName (nm, tg, Ty.slice e))).get "") ws) := by
  have heff2 : ¬ tg.getD nm = "-" := by
    simpa [effName, fdTag, fdName] using heff
  have hstr : isStructTy e = false := by
    cases e <;> simp_all [isScalarTy, isStructTy]
  constructor
  · intro h
    have h2 : (s.get (tg.getD nm)).get "" = [] := by
      simpa [effName, fdTag, fdName] using h
    simp [decodeFieldGo, heff2, hstr, h2]
  · intro hne hall
    obtain ⟨ws, hws, hrel⟩ := convScalars_all_ok e _ hall
    refine ⟨ws, ?_, hrel.length_eq.symm, hrel⟩
    have hslice : decodeSliceGo
        (SliceSrc.strs ((s.get (effName (nm, tg, Ty.slice e))).get "")) e
        = Except.ok (Val.slice ws) := by
      cases e <;> simp_all [decodeSliceGo, isScalarTy]
    simp only [decodeFieldGo, effName, fdTag, fdName] at *
    rw [if_neg heff2]
    simp only [hstr, Bool.false_eq_true, if_false]
    rw [if_neg (by simpa [List.isEmpty_iff] using hne)]
    exact hslice

/-- C3 (witness): duplicated key `P=1`, `P=2` into a `[]int64` field yields
the two-element collection `[1, 2]` in source order. -/
theorem c3_witness :
    ∃ ws, decodeFieldGo ⟨"S", [("P", ⟨[("", ["1", "2"])]⟩)]⟩
        ("P", none, Ty.slice (Ty.int 64)) (Val.slice [])
      = Except.ok (Val.slice ws) ∧
      ws.length = (((Section.mk "S" [("P", ⟨[("", ["1", "2"])]⟩)]).get
        (effName ("P", none, Ty.slice (Ty.int 64)))).get "").length ∧
      List.Forall₂ (fun r w => decodeScalarGo r (Ty.int 64) = Except.ok w)
        (((Section.mk "S" [("P", ⟨[("", ["1", "2"])]⟩)]).get
          (effName ("P", none, Ty.slice (Ty.int 64)))).get "") ws :=
  (c3_slice_decode_elementwise ⟨"S", [("P", ⟨[("", ["1", "2"])]⟩)]⟩ "P" none (Ty.int 64)
      (Val.slice []) rfl (by decide)).2
    (by decide)
    (by
      intro r hr
      have : r = "1" ∨ r = "2" := by
        simpa [Section.get, Property.get, List.find?] using hr
      rcases this with rfl | rfl
      · exact ⟨Val.int 1, rfl⟩
      · exact ⟨Val.int 2, rfl⟩)

/-- C10: the origin-name rule keys on the Go field name and the string kind
alone.  A string-kind field named `ININame` receives the section's own name
— for every section (so even when a property named `ININame` exists) and
under any non-skip tag override, with no property lookup; a field named
`ININame` of any non-string kind has no such special case: its binding is a
function of the effective (tag-resolved) name only, identical to that of a
field of any other name resolving to the same effective name. -/
theorem c10_origin_name_string_only (s : Section) (tg : Option String) (v : Val) :
    (tg ≠ some "-" →
      decodeFieldGo s ("ININame", tg, Ty.str) v = Except.ok (Val.str s.name)) ∧
    (∀ (nm1 nm2 : String) (tg1 tg2 : Option String) (ty : Ty), ty ≠ Ty.str →
      effName (nm1, tg1, ty) = effName (nm2, tg2, ty) →
      decodeFieldGo s (nm1, tg1, ty) v = decodeFieldGo s (nm2, tg2, ty) v) := by
  constructor
  · intro htg
    have heff2 : ¬ tg.getD "ININame" = "-" := by
      cases tg with
      | none => decide
      | some t =>
        simp only [Option.getD_some]
        intro h
        exact htg (by rw [h])
    simp [decodeFieldGo, heff2]
  · intro nm1 nm2 tg1 tg2 ty hty heq
    have heq2 : tg1.getD nm1 = tg2.getD nm2 := by
      simpa [effName, fdTag, fdName] using heq
    cases ty with
    | str => exact absurd rfl hty
    | int w => simp [decodeFieldGo, heq2]
    | uint w => simp [decodeFieldGo, heq2]
    | bool => simp [decodeFieldGo, heq2]
    | slice e => simp [decodeFieldGo, heq2]
    | mapt e => simp [decodeFieldGo, heq2]
    | strct ifs => simp [decodeFieldGo, heq2]

/-- C10 (witness): a section named `Sec` that even carries a property named
`ININame` still binds a tag-overridden string `ININame` field to `"Sec"`,
while an `int64` field named `ININame` is bound by ordinary property lookup
(here: of the effective name `ININame`), exactly as a differently-named
field with the same effective name. -/
theorem c10_witness :
    decodeFieldGo ⟨"Sec", [("ININame", ⟨[("", ["zzz"])]⟩)]⟩
        ("ININame", some "other", Ty.str) (Val.str "")
      = Except.ok (Val.str "Sec") ∧
    decodeFieldGo ⟨"Sec", [("ININame", ⟨[("", ["7"])]⟩)]⟩
        ("ININame", none, Ty.int 64) (Val.int 0)
      = decodeFieldGo ⟨"Sec", [("ININame", ⟨[("", ["7"])]⟩)]⟩
          ("Other", some "ININame", Ty.int 64) (Val.int 0) :=
  ⟨(c10_origin_name_string_only ⟨"Sec", [("ININame", ⟨[("", ["zzz"])]⟩)]⟩
      (some "other") (Val.str "")).1 (by simp),
   (c10_origin_name_string_only ⟨"Sec", [("ININame", ⟨[("", ["7"])]⟩)]⟩
      none (Val.int 0)).2 "ININame" "Other" none (some "ININame") (Ty.int 64)
      (by simp) (by rfl)⟩

end GoIni
